import Mathlib

/-!
Verification of the rule-resolution engine of the `czx-command` repository
(`src/cmd/orm/orm.go`). The resolver parses ignore / retag / regrom-tag /
data-type directives of the form `scope->field->target` (or
`scope->f1,f2` for ignores), routes `*`-scoped ones into a global option
list and literal-scoped ones into per-table maps, and resolves the option
list for each requested table.

Go maps from `string` are embedded as association lists with a
lookup function (`lookupA`); Go map writes `m[k] = v` become `mapUpd`,
which keeps keys unique. `gorm.io/gen` option constructors
(`gen.FieldIgnore`, `gen.FieldJSONTag`, `gen.FieldGORMTag`) are opaque to
the resolver, so they are embedded as constructors of `ModelOpt`;
`gen.FieldGORMTag`'s closure observably sets the `column` gorm tag to the
directive's target, so it is recorded as that pair. `DataTypeFn` values
(Go closures) are opaque tokens, embedded as `String`.
-/

deriving instance DecidableEq for Except

/-- Worker for `strSplitOn`: scans the character list, emitting the
accumulated (reversed) chunk whenever the separator occurs, leftmost and
non-overlapping. The fuel argument only makes the recursion structural;
`fuel = s.length` never runs out. -/
def splitFuel (sep : List Char) : Nat → List Char → List Char → List (List Char)
  | _, cur, [] => [cur.reverse]
  | 0, cur, s => [cur.reverse ++ s]
  | fuel + 1, cur, c :: rest =>
      if sep.isPrefixOf (c :: rest) then
        cur.reverse :: splitFuel sep fuel [] ((c :: rest).drop sep.length)
      else
        splitFuel sep fuel (c :: cur) rest

/-- Embedding of Go `strings.Split(s, sep)` for a nonempty separator:
splits around each leftmost non-overlapping occurrence of `sep`
(`Split("", sep) = [""]`, and a trailing separator yields a final `""`). -/
def strSplitOn (s sep : String) : List String :=
  (splitFuel sep.data s.data.length [] s.data).map (fun l => ⟨l⟩)

/-- Go `DataTypeFn = func(gorm.ColumnType) string`: an opaque closure;
only its identity matters to the resolver, so it is an opaque token. -/
abbrev DataTypeFn := String

/-- Embedding of the `gen.ModelOpt` values the resolver constructs
(orm.go lines 261, 307, 323-325, 339, 385, 390, 396-398). -/
inductive ModelOpt where
  | fieldIgnore (fields : List String)
  | fieldJSONTag (field tag : String)
  | fieldGORMTag (field column : String)
deriving DecidableEq, Repr

/-- Association-list lookup, embedding a Go map read `v, ok := m[k]`. -/
def lookupA {α : Type} (m : List (String × α)) (k : String) : Option α :=
  match m with
  | [] => none
  | (k1, v) :: rest => if k1 = k then some v else lookupA rest k

/-- Association-list update, embedding a Go map write `m[k] = v`. -/
def mapUpd {α : Type} (m : List (String × α)) (k : String) (v : α) :
    List (String × α) :=
  match m with
  | [] => [(k, v)]
  | (k1, v1) :: rest =>
      if k1 = k then (k, v) :: rest else (k1, v1) :: mapUpd rest k v

/-- Embedding of Go `m[k] = append(m[k], xs...)` (a nil slice for a
missing key appends as the empty list). -/
def mapAppend {α : Type} (m : List (String × List α)) (k : String)
    (xs : List α) : List (String × List α) :=
  mapUpd m k (((lookupA m k).getD []) ++ xs)

/-- Embedding of `maps.Copy(dst, src)` applied to a `maps.Clone` of `dst`:
every entry of `src` overwrites `dst` (orm.go lines 403-405, 423-424). -/
def mapsCopy {α : Type} (dst src : List (String × α)) :
    List (String × α) :=
  src.foldl (fun acc kv => mapUpd acc kv.1 kv.2) dst

/-- The directive inputs of the resolver: the fields of Go `OrmOption`
that `formatGlobal` reads (orm.go lines 45-86). The `db`, `gconf`,
`daoTables`, `daoApi` fields configure external collaborators and carry
no directives. A `none` data-type map embeds a nil Go map. -/
structure OrmOption where
  rename : List (String × String)
  ignore : List String
  retags : List String
  reGromTags : List String
  dataType : Option (List (String × DataTypeFn))
deriving DecidableEq, Repr

/-- The resolver's state: the rule-holding fields of Go `Orm`
(orm.go lines 87-97). -/
structure OrmState where
  retagopt : List (String × List (String × String))
  regormtag : List (String × List (String × String))
  ignoreopt : List (String × List String)
  types : List (String × List (String × DataTypeFn))
  globalTypes : List (String × DataTypeFn)
  global : List ModelOpt
deriving DecidableEq, Repr

/-- The state built by `NewOrmCommand` (orm.go lines 104-117): all maps
empty; the `global` and `regormtag` fields are left nil in the source,
which reads as empty. -/
def initOrm : OrmState :=
  { retagopt := [], regormtag := [], ignoreopt := [], types := [],
    globalTypes := [], global := [] }

/-- The retag loop of `formatGlobal` (orm.go lines 299-311): threads the
local `retags` map and the `o.global` list. -/
def retagLoop (acc : List (String × List (String × String)) × List ModelOpt) :
    List String →
    Except String (List (String × List (String × String)) × List ModelOpt)
  | [] => .ok acc
  | d :: rest =>
    match strSplitOn d "->" with
    | [a, b, c] =>
        if a = "*" then
          retagLoop (acc.1, acc.2 ++ [.fieldJSONTag b (c ++ ",omitempty")]) rest
        else
          retagLoop (mapAppend acc.1 a [(b, c ++ ",omitempty")], acc.2) rest
    | _ => .error ("invalid retag format: " ++ d)

/-- The reGromTag loop of `formatGlobal` (orm.go lines 315-329). The
table-scoped branch reproduces the source exactly: it writes into the
local `regormtags` map an entry whose base slice is read from the
`retags` map (`regormtags[parts[0]] = append(retags[parts[0]], ...)`,
line 328). -/
def regromLoop (retags : List (String × List (String × String)))
    (acc : List (String × List (String × String)) × List ModelOpt) :
    List String →
    Except String (List (String × List (String × String)) × List ModelOpt)
  | [] => .ok acc
  | d :: rest =>
    match strSplitOn d "->" with
    | [a, b, c] =>
        if a = "*" then
          regromLoop retags (acc.1, acc.2 ++ [.fieldGORMTag b c]) rest
        else
          regromLoop retags
            (mapUpd acc.1 a (((lookupA retags a).getD []) ++ [(b, c)]), acc.2)
            rest
    | _ => .error ("invalid retag format: " ++ d)

/-- The ignore loop of `formatGlobal` (orm.go lines 332-343): threads
`o.ignoreopt` and `o.global`. -/
def ignoreLoop (acc : List (String × List String) × List ModelOpt) :
    List String →
    Except String (List (String × List String) × List ModelOpt)
  | [] => .ok acc
  | d :: rest =>
    match strSplitOn d "->" with
    | [a, b] =>
        if a = "*" then
          ignoreLoop (acc.1, acc.2 ++ [.fieldIgnore (strSplitOn b ",")]) rest
        else
          ignoreLoop (mapAppend acc.1 a (strSplitOn b ","), acc.2) rest
    | _ => .error ("invalid ignore format: " ++ d)

/-- The data-type loop of `formatGlobal` (orm.go lines 359-375): threads
`o.types` and `o.globalTypes`. -/
def dataTypeLoop
    (acc : List (String × List (String × DataTypeFn)) ×
           List (String × DataTypeFn)) :
    List (String × DataTypeFn) →
    Except String (List (String × List (String × DataTypeFn)) ×
                   List (String × DataTypeFn))
  | [] => .ok acc
  | (key, typ) :: rest =>
    match strSplitOn key "->" with
    | [a, b] =>
        if a = "*" then
          dataTypeLoop (acc.1, mapUpd acc.2 b typ) rest
        else
          dataTypeLoop
            (mapUpd acc.1 a (mapUpd ((lookupA acc.1 a).getD []) b typ), acc.2)
            rest
    | _ => .error ("invalid data type mapping format: " ++ key)

/-- `Orm.formatGlobal` (orm.go lines 297-378). The local `regormtags`
map built by the reGromTag loop is never assigned to `o.regormtag` in the
source, so the state's `regormtag` field is left unchanged here. The
rename branch (lines 346-353) only installs a file-name strategy on the
external generator and touches no resolver state. On an error the caller
aborts, so partially mutated state is unobservable and is discarded. -/
def formatGlobal (opt : OrmOption) (o : OrmState) : Except String OrmState := do
  let (retags, g1) ← retagLoop ([], o.global) opt.retags
  let (_regormLocal, g2) ← regromLoop retags ([], g1) opt.reGromTags
  let (ignoreopt, g3) ← ignoreLoop (o.ignoreopt, g2) opt.ignore
  match opt.dataType with
  | none =>
      .ok { o with retagopt := retags, ignoreopt := ignoreopt, global := g3 }
  | some dts =>
      let (types, gtypes) ← dataTypeLoop (o.types, o.globalTypes) dts
      .ok { o with retagopt := retags, ignoreopt := ignoreopt, global := g3,
                   types := types, globalTypes := gtypes }

/-- The merged data-type map `types_t` computed for a table in
`Orm.optByTable` (orm.go lines 402-406): a clone of `o.globalTypes`
overwritten by the table's entries when the table has any. -/
def typesForTable (o : OrmState) (table : String) :
    List (String × DataTypeFn) :=
  mapsCopy o.globalTypes ((lookupA o.types table).getD [])

/-- `Orm.optByTable` (orm.go lines 381-413). The Go function returns
`([]gen.ModelOpt, error)` with an always-nil error and, when the merged
data-type map is nonempty, passes it to `generator.WithDataTypeMap`; the
second component records that call (`none` = no call). -/
def optByTable (o : OrmState) (table : String) :
    List ModelOpt × Option (List (String × DataTypeFn)) :=
  let opts :=
    (match lookupA o.ignoreopt table with
     | some ign => [ModelOpt.fieldIgnore ign]
     | none => []) ++
    (match lookupA o.retagopt table with
     | some rt => rt.map (fun r => ModelOpt.fieldJSONTag r.1 r.2)
     | none => []) ++
    (match lookupA o.regormtag table with
     | some rgt => rgt.map (fun r => ModelOpt.fieldGORMTag r.1 r.2)
     | none => [])
  let types_t := typesForTable o table
  (opts, if types_t.isEmpty then none else some types_t)

/-- `Orm.genoptByTable` (orm.go lines 416-430): returns the data-type
map handed to `generator.WithDataTypeMap`, `none` when no call happens. -/
def genoptByTable (o : OrmState) (table : String) :
    Option (List (String × DataTypeFn)) :=
  match lookupA o.types table with
  | none => none
  | some types =>
      let types_t := mapsCopy o.globalTypes types
      if types_t.isEmpty then none else some types_t

/-- One `generator.GenerateModel` / `GenerateModelAs` call recorded from
`Orm.model` (orm.go lines 282-290): the table, the custom model name when
present, and the option list passed. -/
structure GenCall where
  table : String
  modelName : Option String
  opts : List ModelOpt
deriving DecidableEq, Repr

/-- The table loop of `Orm.model` (orm.go lines 265-291): `opts` is
threaded through the loop and never reset; entries whose `@`-split has
more than two parts are skipped with a warning. A one-element split
is never empty, so the empty pattern falls into the skip branch. -/
def modelGo (st : OrmState) (acc : List ModelOpt) :
    List String → List GenCall
  | [] => []
  | val :: rest =>
    match strSplitOn val "@" with
    | [t] =>
        let acc2 := acc ++ (optByTable st t).1
        ⟨t, none, acc2⟩ :: modelGo st acc2 rest
    | [t, m] =>
        let acc2 := acc ++ (optByTable st t).1
        ⟨t, some m, acc2⟩ :: modelGo st acc2 rest
    | _ => modelGo st acc rest

/-- `Orm.model` (orm.go lines 249-294) run on an explicit table list
(an empty list is filled from the live schema, an external call). The
initial options are `gen.FieldIgnore` of the raw ignore directives when
any exist (lines 260-262) followed by the global list (line 264). -/
def modelRun (st : OrmState) (ignore : List String)
    (tables : List String) : List GenCall :=
  modelGo st
    ((if ignore.length > 0 then [ModelOpt.fieldIgnore ignore] else []) ++
      st.global)
    tables

/-- The JSON tag name strategy installed on the generator by `Orm.run`
(orm.go lines 165-167). -/
def jsonTagNameStrategy (columnName : String) : String :=
  columnName ++ ",omitempty"

/-- Outcome of `Orm.run` (orm.go lines 156-181): either aborted before
any generation, or completed with the recorded generator calls. -/
inductive RunResult where
  | aborted (msg : String)
  | completed (calls : List GenCall)
deriving DecidableEq, Repr

/-- `Orm.run` followed by `Orm.exec` in `model` style (orm.go lines
156-208): on a `formatGlobal` error the run aborts and
`generator.Execute` is never reached; otherwise `model` runs over the
requested tables and the generator executes. -/
def ormRun (opt : OrmOption) (tables : List String) : RunResult :=
  match formatGlobal opt initOrm with
  | .error e => .aborted e
  | .ok st => .completed (modelRun st opt.ignore tables)

/-- `d` is a malformed directive of `opt`: it sits in one of the four
directive inputs and does not split on `->` into the segment count that
input expects (3 for retag and regrom-tag, 2 for ignore and data-type
keys). -/
def isBadOf (opt : OrmOption) (d : String) : Prop :=
  (d ∈ opt.retags ∧ (strSplitOn d "->").length ≠ 3) ∨
  (d ∈ opt.reGromTags ∧ (strSplitOn d "->").length ≠ 3) ∨
  (d ∈ opt.ignore ∧ (strSplitOn d "->").length ≠ 2) ∨
  (∃ dts, opt.dataType = some dts ∧
    ∃ v, (d, v) ∈ dts ∧ (strSplitOn d "->").length ≠ 2)

/-- `msg` contains `d` as a contiguous substring. -/
def containsStr (msg d : String) : Prop :=
  ∃ p s, msg = p ++ d ++ s

/-- The tag string carries the `,omitempty` suffix. -/
def tagHasOmitempty (t : String) : Prop :=
  ∃ p, t = p ++ ",omitempty"

/-- Every `fieldJSONTag` option in the list carries the `,omitempty`
suffix on its tag. -/
def optsJsonOmit (l : List ModelOpt) : Prop :=
  ∀ f t, ModelOpt.fieldJSONTag f t ∈ l → tagHasOmitempty t

/-- Every retag pair stored in a per-table retag map carries the
`,omitempty` suffix on its tag. -/
def rtmapOmit (m : List (String × List (String × String))) : Prop :=
  ∀ T e, lookupA m T = some e → ∀ r ∈ e, tagHasOmitempty r.2

theorem lookupA_mapUpd_self {α : Type} (m : List (String × α)) (k : String)
    (v : α) : lookupA (mapUpd m k v) k = some v := by
  induction m with
  | nil => simp [mapUpd, lookupA]
  | cons hd tl ih =>
      obtain ⟨k1, v1⟩ := hd
      by_cases hk : k1 = k
      · simp [mapUpd, hk, lookupA]
      · simp [mapUpd, hk, lookupA, ih]

theorem lookupA_mapUpd_ne {α : Type} (m : List (String × α)) (k q : String)
    (v : α) (hq : q ≠ k) : lookupA (mapUpd m k v) q = lookupA m q := by
  induction m with
  | nil => simp [mapUpd, lookupA, Ne.symm hq]
  | cons hd tl ih =>
      obtain ⟨k1, v1⟩ := hd
      by_cases hk : k1 = k
      · subst hk
        simp [mapUpd, lookupA, Ne.symm hq]
      · simp [mapUpd, hk, lookupA, ih]

theorem lookupA_none_of_not_mem {α : Type} (m : List (String × α))
    (k : String) (h : k ∉ m.map Prod.fst) : lookupA m k = none := by
  induction m with
  | nil => simp [lookupA]
  | cons hd tl ih =>
      obtain ⟨k1, v1⟩ := hd
      simp only [List.map_cons, List.mem_cons] at h
      push_neg at h
      simp [lookupA, Ne.symm h.1, ih h.2]

theorem lookupA_mapsCopy {α : Type} (src : List (String × α)) :
    ∀ (dst : List (String × α)) (k : String),
    (src.map Prod.fst).Nodup →
    lookupA (mapsCopy dst src) k = (lookupA src k).or (lookupA dst k) := by
  induction src with
  | nil => intro dst k _; simp [mapsCopy, lookupA, Option.or]
  | cons hd tl ih =>
      intro dst k hnd
      obtain ⟨k0, v0⟩ := hd
      simp only [List.map_cons, List.nodup_cons] at hnd
      have h1 : mapsCopy dst ((k0, v0) :: tl) = mapsCopy (mapUpd dst k0 v0) tl :=
        rfl
      rw [h1, ih (mapUpd dst k0 v0) k hnd.2]
      by_cases hk : k0 = k
      · subst hk
        rw [lookupA_none_of_not_mem tl k0 hnd.1, lookupA_mapUpd_self]
        simp [lookupA, Option.or]
      · rw [lookupA_mapUpd_ne dst k0 k v0 (fun e => hk e.symm)]
        simp [lookupA, hk]

theorem retagLoop_ok_wf (l : List String) :
    ∀ acc r, retagLoop acc l = .ok r →
    ∀ d ∈ l, (strSplitOn d "->").length = 3 := by
  induction l with
  | nil => intro acc r _ d hd; simp at hd
  | cons d0 rest ih =>
      intro acc r h d hd
      simp only [retagLoop] at h
      rcases List.mem_cons.mp hd with hd0 | hdr
      · subst hd0
        split at h
        · next a b c heq => simp [heq]
        · exact absurd h (by simp)
      · split at h
        · split at h
          · exact ih _ _ h d hdr
          · exact ih _ _ h d hdr
        · exact absurd h (by simp)

theorem retagLoop_error_char (l : List String) :
    ∀ acc msg, retagLoop acc l = .error msg →
    ∃ d ∈ l, (strSplitOn d "->").length ≠ 3 ∧
      msg = "invalid retag format: " ++ d := by
  induction l with
  | nil => intro acc msg h; simp [retagLoop] at h
  | cons d0 rest ih =>
      intro acc msg h
      simp only [retagLoop] at h
      split at h
      · split at h
        · obtain ⟨d, hd, hlen, hmsg⟩ := ih _ _ h
          exact ⟨d, List.mem_cons_of_mem _ hd, hlen, hmsg⟩
        · obtain ⟨d, hd, hlen, hmsg⟩ := ih _ _ h
          exact ⟨d, List.mem_cons_of_mem _ hd, hlen, hmsg⟩
      · next hne =>
          cases h
          refine ⟨d0, List.mem_cons_self _ _, ?_, rfl⟩
          intro h3
          obtain ⟨a, b, c, habc⟩ := List.length_eq_three.mp h3
          exact hne a b c habc

theorem regromLoop_ok_wf (l : List String) :
    ∀ retags acc r, regromLoop retags acc l = .ok r →
    ∀ d ∈ l, (strSplitOn d "->").length = 3 := by
  induction l with
  | nil => intro retags acc r _ d hd; simp at hd
  | cons d0 rest ih =>
      intro retags acc r h d hd
      simp only [regromLoop] at h
      rcases List.mem_cons.mp hd with hd0 | hdr
      · subst hd0
        split at h
        · next a b c heq => simp [heq]
        · exact absurd h (by simp)
      · split at h
        · split at h
          · exact ih _ _ _ h d hdr
          · exact ih _ _ _ h d hdr
        · exact absurd h (by simp)

theorem regromLoop_error_char (l : List String) :
    ∀ retags acc msg, regromLoop retags acc l = .error msg →
    ∃ d ∈ l, (strSplitOn d "->").length ≠ 3 ∧
      msg = "invalid retag format: " ++ d := by
  induction l with
  | nil => intro retags acc msg h; simp [regromLoop] at h
  | cons d0 rest ih =>
      intro retags acc msg h
      simp only [regromLoop] at h
      split at h
      · split at h
        · obtain ⟨d, hd, hlen, hmsg⟩ := ih _ _ _ h
          exact ⟨d, List.mem_cons_of_mem _ hd, hlen, hmsg⟩
        · obtain ⟨d, hd, hlen, hmsg⟩ := ih _ _ _ h
          exact ⟨d, List.mem_cons_of_mem _ hd, hlen, hmsg⟩
      · next hne =>
          cases h
          refine ⟨d0, List.mem_cons_self _ _, ?_, rfl⟩
          intro h3
          obtain ⟨a, b, c, habc⟩ := List.length_eq_three.mp h3
          exact hne a b c habc

theorem ignoreLoop_ok_wf (l : List String) :
    ∀ acc r, ignoreLoop acc l = .ok r →
    ∀ d ∈ l, (strSplitOn d "->").length = 2 := by
  induction l with
  | nil => intro acc r _ d hd; simp at hd
  | cons d0 rest ih =>
      intro acc r h d hd
      simp only [ignoreLoop] at h
      rcases List.mem_cons.mp hd with hd0 | hdr
      · subst hd0
        split at h
        · next a b heq => simp [heq]
        · exact absurd h (by simp)
      · split at h
        · split at h
          · exact ih _ _ h d hdr
          · exact ih _ _ h d hdr
        · exact absurd h (by simp)

theorem ignoreLoop_error_char (l : List String) :
    ∀ acc msg, ignoreLoop acc l = .error msg →
    ∃ d ∈ l, (strSplitOn d "->").length ≠ 2 ∧
      msg = "invalid ignore format: " ++ d := by
  induction l with
  | nil => intro acc msg h; simp [ignoreLoop] at h
  | cons d0 rest ih =>
      intro acc msg h
      simp only [ignoreLoop] at h
      split at h
      · split at h
        · obtain ⟨d, hd, hlen, hmsg⟩ := ih _ _ h
          exact ⟨d, List.mem_cons_of_mem _ hd, hlen, hmsg⟩
        · obtain ⟨d, hd, hlen, hmsg⟩ := ih _ _ h
          exact ⟨d, List.mem_cons_of_mem _ hd, hlen, hmsg⟩
      · next hne =>
          cases h
          refine ⟨d0, List.mem_cons_self _ _, ?_, rfl⟩
          intro h2
          obtain ⟨a, b, hab⟩ := List.length_eq_two.mp h2
          exact hne a b hab

theorem dataTypeLoop_ok_wf (l : List (String × DataTypeFn)) :
    ∀ acc r, dataTypeLoop acc l = .ok r →
    ∀ kv ∈ l, (strSplitOn kv.1 "->").length = 2 := by
  induction l with
  | nil => intro acc r _ kv hkv; simp at hkv
  | cons kv0 rest ih =>
      intro acc r h kv hkv
      obtain ⟨key, typ⟩ := kv0
      simp only [dataTypeLoop] at h
      rcases List.mem_cons.mp hkv with hk0 | hkr
      · subst hk0
        split at h
        · next a b heq => simp [heq]
        · exact absurd h (by simp)
      · split at h
        · split at h
          · exact ih _ _ h kv hkr
          · exact ih _ _ h kv hkr
        · exact absurd h (by simp)

theorem dataTypeLoop_error_char (l : List (String × DataTypeFn)) :
    ∀ acc msg, dataTypeLoop acc l = .error msg →
    ∃ kv ∈ l, (strSplitOn kv.1 "->").length ≠ 2 ∧
      msg = "invalid data type mapping format: " ++ kv.1 := by
  induction l with
  | nil => intro acc msg h; simp [dataTypeLoop] at h
  | cons kv0 rest ih =>
      intro acc msg h
      obtain ⟨key, typ⟩ := kv0
      simp only [dataTypeLoop] at h
      split at h
      · split at h
        · obtain ⟨kv, hkv, hlen, hmsg⟩ := ih _ _ h
          exact ⟨kv, List.mem_cons_of_mem _ hkv, hlen, hmsg⟩
        · obtain ⟨kv, hkv, hlen, hmsg⟩ := ih _ _ h
          exact ⟨kv, List.mem_cons_of_mem _ hkv, hlen, hmsg⟩
      · next hne =>
          cases h
          refine ⟨(key, typ), List.mem_cons_self _ _, ?_, rfl⟩
          intro h2
          obtain ⟨a, b, hab⟩ := List.length_eq_two.mp h2
          exact hne a b hab

theorem formatGlobal_ok_parts (opt : OrmOption) (o st : OrmState)
    (h : formatGlobal opt o = .ok st) :
    ∃ retags g1 rgl g2 ignopt g3,
      retagLoop ([], o.global) opt.retags = .ok (retags, g1) ∧
      regromLoop retags ([], g1) opt.reGromTags = .ok (rgl, g2) ∧
      ignoreLoop (o.ignoreopt, g2) opt.ignore = .ok (ignopt, g3) ∧
      st.retagopt = retags ∧ st.regormtag = o.regormtag ∧
      st.ignoreopt = ignopt ∧ st.global = g3 ∧
      ((opt.dataType = none ∧ st.types = o.types ∧
          st.globalTypes = o.globalTypes) ∨
        ∃ dts types gtypes, opt.dataType = some dts ∧
          dataTypeLoop (o.types, o.globalTypes) dts = .ok (types, gtypes) ∧
          st.types = types ∧ st.globalTypes = gtypes) := by
  unfold formatGlobal at h
  cases h1 : retagLoop ([], o.global) opt.retags with
  | error e => rw [h1] at h; simp [Bind.bind, Except.bind] at h
  | ok p1 =>
  obtain ⟨retags, g1⟩ := p1
  rw [h1] at h
  simp only [Bind.bind, Except.bind] at h
  cases h2 : regromLoop retags ([], g1) opt.reGromTags with
  | error e => rw [h2] at h; simp at h
  | ok p2 =>
  obtain ⟨rgl, g2⟩ := p2
  rw [h2] at h
  simp only at h
  cases h3 : ignoreLoop (o.ignoreopt, g2) opt.ignore with
  | error e => rw [h3] at h; simp at h
  | ok p3 =>
  obtain ⟨ignopt, g3⟩ := p3
  rw [h3] at h
  simp only at h
  cases hdt : opt.dataType with
  | none =>
      rw [hdt] at h
      simp only at h
      injection h with h
      subst h
      exact ⟨retags, g1, rgl, g2, ignopt, g3, rfl, h2, h3, rfl, rfl, rfl,
        rfl, Or.inl ⟨rfl, rfl, rfl⟩⟩
  | some dts =>
      rw [hdt] at h
      simp only at h
      cases h4 : dataTypeLoop (o.types, o.globalTypes) dts with
      | error e => rw [h4] at h; simp at h
      | ok p4 =>
      obtain ⟨types, gtypes⟩ := p4
      rw [h4] at h
      simp only at h
      injection h with h
      subst h
      exact ⟨retags, g1, rgl, g2, ignopt, g3, rfl, h2, h3, rfl, rfl, rfl,
        rfl, Or.inr ⟨dts, types, gtypes, rfl, h4, rfl, rfl⟩⟩

theorem formatGlobal_error_char (opt : OrmOption) (o : OrmState)
    (msg : String) (h : formatGlobal opt o = .error msg) :
    ∃ d, isBadOf opt d ∧ containsStr msg d := by
  unfold formatGlobal at h
  cases h1 : retagLoop ([], o.global) opt.retags with
  | error e =>
      rw [h1] at h
      simp only [Bind.bind, Except.bind] at h
      injection h with h
      subst h
      obtain ⟨d, hd, hlen, hmsg⟩ := retagLoop_error_char _ _ _ h1
      exact ⟨d, Or.inl ⟨hd, hlen⟩, "invalid retag format: ", "", by
        simp [hmsg]⟩
  | ok p1 =>
  obtain ⟨retags, g1⟩ := p1
  rw [h1] at h
  simp only [Bind.bind, Except.bind] at h
  cases h2 : regromLoop retags ([], g1) opt.reGromTags with
  | error e =>
      rw [h2] at h
      simp only at h
      injection h with h
      subst h
      obtain ⟨d, hd, hlen, hmsg⟩ := regromLoop_error_char _ _ _ _ h2
      exact ⟨d, Or.inr (Or.inl ⟨hd, hlen⟩), "invalid retag format: ", "", by
        simp [hmsg]⟩
  | ok p2 =>
  obtain ⟨rgl, g2⟩ := p2
  rw [h2] at h
  simp only at h
  cases h3 : ignoreLoop (o.ignoreopt, g2) opt.ignore with
  | error e =>
      rw [h3] at h
      simp only at h
      injection h with h
      subst h
      obtain ⟨d, hd, hlen, hmsg⟩ := ignoreLoop_error_char _ _ _ h3
      exact ⟨d, Or.inr (Or.inr (Or.inl ⟨hd, hlen⟩)),
        "invalid ignore format: ", "", by simp [hmsg]⟩
  | ok p3 =>
  obtain ⟨ignopt, g3⟩ := p3
  rw [h3] at h
  simp only at h
  cases hdt : opt.dataType with
  | none => rw [hdt] at h; simp at h
  | some dts =>
      rw [hdt] at h
      simp only at h
      cases h4 : dataTypeLoop (o.types, o.globalTypes) dts with
      | error e =>
          rw [h4] at h
          simp only at h
          injection h with h
          subst h
          obtain ⟨kv, hkv, hlen, hmsg⟩ := dataTypeLoop_error_char _ _ _ h4
          exact ⟨kv.1, Or.inr (Or.inr (Or.inr ⟨dts, hdt, kv.2, by
            simpa using hkv, hlen⟩)),
            "invalid data type mapping format: ", "", by simp [hmsg]⟩
      | ok p4 =>
          obtain ⟨types, gtypes⟩ := p4
          rw [h4] at h
          simp at h

theorem formatGlobal_error_of_bad (opt : OrmOption) (o : OrmState)
    (d : String) (hbad : isBadOf opt d) :
    ∃ msg, formatGlobal opt o = .error msg := by
  cases h : formatGlobal opt o with
  | error msg => exact ⟨msg, rfl⟩
  | ok st =>
      exfalso
      obtain ⟨retags, g1, rgl, g2, ignopt, g3, h1, h2, h3, _, _, _, _, hdt⟩ :=
        formatGlobal_ok_parts opt o st h
      rcases hbad with ⟨hd, hlen⟩ | ⟨hd, hlen⟩ | ⟨hd, hlen⟩ |
        ⟨dts, hsome, v, hkv, hlen⟩
      · exact hlen (retagLoop_ok_wf _ _ _ h1 d hd)
      · exact hlen (regromLoop_ok_wf _ _ _ _ h2 d hd)
      · exact hlen (ignoreLoop_ok_wf _ _ _ h3 d hd)
      · rcases hdt with ⟨hnone, _, _⟩ | ⟨dts2, types, gtypes, hsome2, h4, _, _⟩
        · rw [hnone] at hsome; exact absurd hsome (by simp)
        · rw [hsome2] at hsome
          injection hsome with hsome
          subst hsome
          exact hlen (dataTypeLoop_ok_wf _ _ _ h4 (d, v) hkv)

theorem modelGo_mem_opts (st : OrmState) (ts : List String) :
    ∀ (acc : List ModelOpt) (c : GenCall), c ∈ modelGo st acc ts →
    ∃ s, c.opts = acc ++ s := by
  induction ts with
  | nil => intro acc c hc; simp [modelGo] at hc
  | cons val rest ih =>
      intro acc c hc
      simp only [modelGo] at hc
      split at hc
      · next x t heq =>
          rcases List.mem_cons.mp hc with hc0 | hcr
          · subst hc0; exact ⟨_, rfl⟩
          · obtain ⟨s, hs⟩ := ih _ _ hcr
            exact ⟨(optByTable st t).1 ++ s, by simp [hs]⟩
      · next x t m heq =>
          rcases List.mem_cons.mp hc with hc0 | hcr
          · subst hc0; exact ⟨_, rfl⟩
          · obtain ⟨s, hs⟩ := ih _ _ hcr
            exact ⟨(optByTable st t).1 ++ s, by simp [hs]⟩
      · exact ih _ _ hc

theorem modelGo_chain (st : OrmState) (ts : List String) :
    ∀ (acc : List ModelOpt) (i j : Nat), i < j →
    ∀ ci cj, (modelGo st acc ts)[i]? = some ci →
      (modelGo st acc ts)[j]? = some cj →
    ∃ pre rest, cj.opts = pre ++ (optByTable st ci.table).1 ++ rest := by
  induction ts with
  | nil => intro acc i j _ ci cj hgi _; simp [modelGo] at hgi
  | cons val rest ih =>
      intro acc i j hij ci cj hgi hgj
      rcases hsp : strSplitOn val "@" with _ | ⟨t, _ | ⟨m, l⟩⟩
      · rw [modelGo, hsp] at hgi hgj
        exact ih acc i j hij ci cj hgi hgj
      · rw [modelGo, hsp] at hgi hgj
        obtain ⟨jj, rfl⟩ : ∃ jj, j = jj + 1 := ⟨j - 1, by omega⟩
        rw [List.getElem?_cons_succ] at hgj
        cases i with
        | zero =>
            simp only [List.getElem?_cons_zero, Option.some_inj] at hgi
            subst hgi
            have hmem : cj ∈ modelGo st (acc ++ (optByTable st t).1) rest :=
              List.getElem?_mem hgj
            obtain ⟨s, hs⟩ := modelGo_mem_opts st rest _ cj hmem
            exact ⟨acc, s, by simp [hs]⟩
        | succ ii =>
            rw [List.getElem?_cons_succ] at hgi
            exact ih _ ii jj (by omega) ci cj hgi hgj
      · rcases l with _ | ⟨x, l2⟩
        · rw [modelGo, hsp] at hgi hgj
          obtain ⟨jj, rfl⟩ : ∃ jj, j = jj + 1 := ⟨j - 1, by omega⟩
          rw [List.getElem?_cons_succ] at hgj
          cases i with
          | zero =>
              simp only [List.getElem?_cons_zero, Option.some_inj] at hgi
              subst hgi
              have hmem : cj ∈ modelGo st (acc ++ (optByTable st t).1) rest :=
                List.getElem?_mem hgj
              obtain ⟨s, hs⟩ := modelGo_mem_opts st rest _ cj hmem
              exact ⟨acc, s, by simp [hs]⟩
          | succ ii =>
              rw [List.getElem?_cons_succ] at hgi
              exact ih _ ii jj (by omega) ci cj hgi hgj
        · rw [modelGo, hsp] at hgi hgj
          exact ih acc i j hij ci cj hgi hgj

theorem retagLoop_omit (l : List String) :
    ∀ acc r, rtmapOmit acc.1 → optsJsonOmit acc.2 →
    retagLoop acc l = .ok r → rtmapOmit r.1 ∧ optsJsonOmit r.2 := by
  induction l with
  | nil =>
      intro acc r h1 h2 h
      simp only [retagLoop] at h
      injection h with h
      subst h
      exact ⟨h1, h2⟩
  | cons d0 rest ih =>
      intro acc r h1 h2 h
      simp only [retagLoop] at h
      split at h
      · next a b c heq =>
          split at h
          · refine ih
              (acc.1, acc.2 ++ [ModelOpt.fieldJSONTag b (c ++ ",omitempty")])
              r h1 ?_ h
            intro f t hmem
            rcases List.mem_append.mp hmem with hold | hnew
            · exact h2 f t hold
            · simp only [List.mem_singleton, ModelOpt.fieldJSONTag.injEq]
                at hnew
              exact ⟨c, hnew.2⟩
          · refine ih
              (mapAppend acc.1 a [(b, c ++ ",omitempty")], acc.2) r ?_ h2 h
            intro T e hTe r2 hr2
            by_cases hTa : a = T
            · subst hTa
              simp only [mapAppend] at hTe
              rw [lookupA_mapUpd_self] at hTe
              injection hTe with hTe
              subst hTe
              rcases List.mem_append.mp hr2 with hold | hnew
              · cases hl : lookupA acc.1 a with
                | none => rw [hl] at hold; simp at hold
                | some e0 =>
                    rw [hl] at hold
                    exact h1 a e0 hl r2 hold
              · simp only [List.mem_singleton] at hnew
                exact ⟨c, by rw [hnew]⟩
            · simp only [mapAppend] at hTe
              rw [lookupA_mapUpd_ne _ _ _ _ (fun e => hTa e.symm)] at hTe
              exact h1 T e hTe r2 hr2
      · exact absurd h (by simp)

theorem regromLoop_omit (l : List String) :
    ∀ retags acc r, optsJsonOmit acc.2 →
    regromLoop retags acc l = .ok r → optsJsonOmit r.2 := by
  induction l with
  | nil =>
      intro retags acc r h2 h
      simp only [regromLoop] at h
      injection h with h
      subst h
      exact h2
  | cons d0 rest ih =>
      intro retags acc r h2 h
      simp only [regromLoop] at h
      split at h
      · next a b c heq =>
          split at h
          · refine ih retags
              (acc.1, acc.2 ++ [ModelOpt.fieldGORMTag b c]) r ?_ h
            intro f t hmem
            rcases List.mem_append.mp hmem with hold | hnew
            · exact h2 f t hold
            · simp at hnew
          · exact ih retags
              (mapUpd acc.1 a (((lookupA retags a).getD []) ++ [(b, c)]),
                acc.2) r h2 h
      · exact absurd h (by simp)

theorem ignoreLoop_omit (l : List String) :
    ∀ acc r, optsJsonOmit acc.2 →
    ignoreLoop acc l = .ok r → optsJsonOmit r.2 := by
  induction l with
  | nil =>
      intro acc r h2 h
      simp only [ignoreLoop] at h
      injection h with h
      subst h
      exact h2
  | cons d0 rest ih =>
      intro acc r h2 h
      simp only [ignoreLoop] at h
      split at h
      · next a b heq =>
          split at h
          · refine ih
              (acc.1, acc.2 ++ [ModelOpt.fieldIgnore (strSplitOn b ",")])
              r ?_ h
            intro f t hmem
            rcases List.mem_append.mp hmem with hold | hnew
            · exact h2 f t hold
            · simp at hnew
          · exact ih (mapAppend acc.1 a (strSplitOn b ","), acc.2) r h2 h
      · exact absurd h (by simp)

theorem optByTable_json (o : OrmState) (T f t : String)
    (h : ModelOpt.fieldJSONTag f t ∈ (optByTable o T).1) :
    ∃ e, lookupA o.retagopt T = some e ∧ (f, t) ∈ e := by
  simp only [optByTable] at h
  rcases List.mem_append.mp h with h12 | h3
  · rcases List.mem_append.mp h12 with h1 | h2
    · cases hl : lookupA o.ignoreopt T with
      | none => rw [hl] at h1; simp at h1
      | some ign => rw [hl] at h1; simp at h1
    · cases hl : lookupA o.retagopt T with
      | none => rw [hl] at h2; simp at h2
      | some e =>
          rw [hl] at h2
          simp only [List.mem_map] at h2
          obtain ⟨r, hr, hre⟩ := h2
          simp only [ModelOpt.fieldJSONTag.injEq] at hre
          refine ⟨e, rfl, ?_⟩
          obtain ⟨h1, h2⟩ := hre
          subst h1
          subst h2
          simpa using hr
  · cases hl : lookupA o.regormtag T with
    | none => rw [hl] at h3; simp at h3
    | some rgt => rw [hl] at h3; simp at h3

/-- C8: with all four directive inputs empty (a nil data-type map, and
also an empty non-nil one), `formatGlobal` succeeds and leaves every
rule set empty: the result is exactly the initial resolver state, whose
global list and per-table maps are all empty. -/
theorem spec2proof_C8 :
    formatGlobal
      { rename := [], ignore := [], retags := [], reGromTags := [],
        dataType := none } initOrm = .ok initOrm ∧
    formatGlobal
      { rename := [], ignore := [], retags := [], reGromTags := [],
        dataType := some [] } initOrm = .ok initOrm := by decide

/-- C6: the ignore directive `*->created_at,updated_at` is split on the
comma into two fields and yields a single global `fieldIgnore` rule
covering both `created_at` and `updated_at`, with every per-table map
left empty. -/
theorem spec2proof_C6 :
    formatGlobal
      { rename := [], ignore := ["*->created_at,updated_at"], retags := [],
        reGromTags := [], dataType := none } initOrm =
      .ok { initOrm with
            global := [.fieldIgnore ["created_at", "updated_at"]] } := by
  decide

/-- C2: evaluation of the code at the failing input
`reGromTags = ["user->created_at->c_date"]`. The reGromTag loop does
index the parsed pair under `user` in its local map, but `formatGlobal`
never stores that map in the resolver (the source drops the local
`regormtags` variable), so the resulting state is unchanged and
`optByTable "user"` yields no option at all — contradicting the claim
that it yields a gorm-tag option for the directive's field and target. -/
theorem spec2proof_C2 :
    regromLoop [] ([], []) ["user->created_at->c_date"] =
      .ok ([("user", [("created_at", "c_date")])], []) ∧
    formatGlobal
      { rename := [], ignore := [], retags := [],
        reGromTags := ["user->created_at->c_date"], dataType := none }
      initOrm = .ok initOrm ∧
    optByTable initOrm "user" = ([], none) := by decide

/-- C1 counterexample: for the regrom-tag directive
`orders->status->state` (literal scope `orders`), the produced rule is
not present in `orders`'s resolved options — `optByTable` yields the
empty list — so the claim's "resolving options for T includes it" fails
for the regrom-tag directive kind. -/
theorem spec2proof_C1_cex :
    formatGlobal
      { rename := [], ignore := [], retags := [],
        reGromTags := ["orders->status->state"], dataType := none }
      initOrm = .ok initOrm ∧
    (optByTable initOrm "orders").1 = [] ∧
    ModelOpt.fieldGORMTag "status" "state" ∉
      (optByTable initOrm "orders").1 := by decide

/-- C7: for a table `T` that no literal-scoped directive matches (no
entry for `T` in the ignore, retag, or regorm-tag maps), `optByTable`
contributes no table-specific option, and a `model` run over `[T]`
passes exactly the initial global options to the generator. -/
theorem spec2proof_C7 (o : OrmState) (T : String) (ign : List String)
    (h1 : lookupA o.ignoreopt T = none)
    (h2 : lookupA o.retagopt T = none)
    (h3 : lookupA o.regormtag T = none)
    (hT : strSplitOn T "@" = [T]) :
    (optByTable o T).1 = [] ∧
    modelRun o ign [T] =
      [⟨T, none,
        (if ign.length > 0 then [ModelOpt.fieldIgnore ign] else []) ++
          o.global⟩] := by
  have hopt : (optByTable o T).1 = [] := by
    simp [optByTable, h1, h2, h3]
  refine ⟨hopt, ?_⟩
  simp [modelRun, modelGo, hT, hopt]

/-- C7 witness: a state with a global rule and a directive for another
table; the table `user` matches nothing and receives only the global
rule. -/
theorem spec2proof_C7_witness :
    lookupA (OrmState.ignoreopt
      { initOrm with
          global := [.fieldIgnore ["x"]],
          ignoreopt := [("orders", ["y"])] }) "user" = none ∧
    strSplitOn "user" "@" = ["user"] ∧
    ((optByTable
        { initOrm with
            global := [.fieldIgnore ["x"]],
            ignoreopt := [("orders", ["y"])] } "user").1 = [] ∧
      modelRun
        { initOrm with
            global := [.fieldIgnore ["x"]],
            ignoreopt := [("orders", ["y"])] } [] ["user"] =
        [⟨"user", none,
          (if ([] : List String).length > 0
           then [ModelOpt.fieldIgnore []] else []) ++
            OrmState.global
              { initOrm with
                  global := [.fieldIgnore ["x"]],
                  ignoreopt := [("orders", ["y"])] }⟩]) :=
  ⟨by decide, by decide,
    spec2proof_C7
      { initOrm with
          global := [.fieldIgnore ["x"]],
          ignoreopt := [("orders", ["y"])] }
      "user" [] (by decide) (by decide) (by decide) (by decide)⟩

/-- C3: the data-type map used for a table `T` is the global override
map merged with `T`'s table-specific map, the table-specific entry
winning on a key collision: a lookup in the merged map returns the
table's binding when the key is bound there and falls back to the
global binding otherwise. (Go maps have unique keys, hence the
no-duplicate hypothesis on the table's map.) -/
theorem spec2proof_C3 (o : OrmState) (T k : String)
    (hnd : ((((lookupA o.types T).getD []).map Prod.fst)).Nodup) :
    lookupA (typesForTable o T) k =
      (lookupA ((lookupA o.types T).getD []) k).or
        (lookupA o.globalTypes k) :=
  lookupA_mapsCopy _ _ _ hnd

/-- C3 witness: merging global `{a ↦ X}` with table `{a ↦ Y}` for table
`t` yields `Y` for key `a` — the table-specific value wins. -/
theorem spec2proof_C3_witness :
    ((((lookupA (OrmState.types
        { initOrm with
            globalTypes := [("a", "X")],
            types := [("t", [("a", "Y")])] }) "t").getD []).map
        Prod.fst)).Nodup ∧
    lookupA (typesForTable
      { initOrm with
          globalTypes := [("a", "X")],
          types := [("t", [("a", "Y")])] } "t") "a" = some "Y" :=
  ⟨by decide,
    (spec2proof_C3
      { initOrm with
          globalTypes := [("a", "X")],
          types := [("t", [("a", "Y")])] } "t" "a" (by decide)).trans
      (by decide)⟩

/-- C4: whenever some directive is malformed (wrong `->` segment count
for its kind), `formatGlobal` returns an error whose message contains a
malformed directive string verbatim, and the run aborts with that
error before the generator executes. -/
theorem spec2proof_C4 (opt : OrmOption) (tables : List String) (d : String)
    (hbad : isBadOf opt d) :
    ∃ msg, formatGlobal opt initOrm = .error msg ∧
      (∃ d2, isBadOf opt d2 ∧ containsStr msg d2) ∧
      ormRun opt tables = .aborted msg := by
  obtain ⟨msg, hmsg⟩ := formatGlobal_error_of_bad opt initOrm d hbad
  refine ⟨msg, hmsg, formatGlobal_error_char opt initOrm msg hmsg, ?_⟩
  simp [ormRun, hmsg]

/-- C4 witness: the ignore directive `user-created_at` (no `->`) makes
`formatGlobal` fail with `invalid ignore format: user-created_at` — an
error containing the offending string — and the run aborts. -/
theorem spec2proof_C4_witness :
    isBadOf
      { rename := [], ignore := ["user-created_at"], retags := [],
        reGromTags := [], dataType := none } "user-created_at" ∧
    formatGlobal
      { rename := [], ignore := ["user-created_at"], retags := [],
        reGromTags := [], dataType := none } initOrm =
      .error "invalid ignore format: user-created_at" ∧
    ∃ msg, formatGlobal
        { rename := [], ignore := ["user-created_at"], retags := [],
          reGromTags := [], dataType := none } initOrm = .error msg ∧
      (∃ d2, isBadOf
          { rename := [], ignore := ["user-created_at"], retags := [],
            reGromTags := [], dataType := none } d2 ∧ containsStr msg d2) ∧
      ormRun
        { rename := [], ignore := ["user-created_at"], retags := [],
          reGromTags := [], dataType := none } ["user"] = .aborted msg :=
  ⟨Or.inr (Or.inr (Or.inl ⟨by decide, by decide⟩)), by decide,
    spec2proof_C4 _ ["user"] "user-created_at"
      (Or.inr (Or.inr (Or.inl ⟨by decide, by decide⟩)))⟩

/-- C1 (amended): for an ignore or retag directive whose scope is a
literal table name, the produced rule is present only in that table's
resolved options: `optByTable` of the scope table includes it, and
`optByTable` of any other table does not. (The original claim also
covered regrom-tag directives, which the code drops entirely — see the
counterexample.) Stated over the one-directive-per-kind configuration,
with the parses given as hypotheses. -/
theorem spec2proof_C1 (dr di T T2 f g flds : String)
    (hdr : strSplitOn dr "->" = [T, f, g])
    (hdi : strSplitOn di "->" = [T2, flds])
    (hT : T ≠ "*") (hT2 : T2 ≠ "*") :
    ∃ st, formatGlobal
        { rename := [], ignore := [di], retags := [dr], reGromTags := [],
          dataType := none } initOrm = .ok st ∧
      ModelOpt.fieldJSONTag f (g ++ ",omitempty") ∈ (optByTable st T).1 ∧
      ModelOpt.fieldIgnore (strSplitOn flds ",") ∈ (optByTable st T2).1 ∧
      (∀ U, U ≠ T →
        ModelOpt.fieldJSONTag f (g ++ ",omitempty") ∉ (optByTable st U).1) ∧
      (∀ U, U ≠ T2 →
        ModelOpt.fieldIgnore (strSplitOn flds ",") ∉ (optByTable st U).1) := by
  refine ⟨⟨[(T, [(f, g ++ ",omitempty")])], [], [(T2, strSplitOn flds ",")],
    [], [], []⟩, ?_, ?_, ?_, ?_, ?_⟩
  · simp [formatGlobal, retagLoop, regromLoop, ignoreLoop, hdr, hdi, hT, hT2,
      mapAppend, mapUpd, lookupA, initOrm, Bind.bind, Except.bind]
  · by_cases hc : T2 = T <;> simp [optByTable, lookupA, hc]
  · by_cases hc : T = T2 <;> simp [optByTable, lookupA, hc]
  · intro U hU
    by_cases hc : T2 = U <;>
      simp [optByTable, lookupA, hc, Ne.symm hU]
  · intro U hU
    by_cases hc : T = U <;>
      simp [optByTable, lookupA, hc, Ne.symm hU]

/-- C1 witness: the retag directive `user->created_at->c_date` and the
ignore directive `orders->a,b`, both with literal scopes. -/
theorem spec2proof_C1_witness :
    strSplitOn "user->created_at->c_date" "->" =
      ["user", "created_at", "c_date"] ∧
    strSplitOn "orders->a,b" "->" = ["orders", "a,b"] ∧
    "user" ≠ "*" ∧ "orders" ≠ "*" ∧
    (∃ st, formatGlobal
        { rename := [], ignore := ["orders->a,b"],
          retags := ["user->created_at->c_date"], reGromTags := [],
          dataType := none } initOrm = .ok st ∧
      ModelOpt.fieldJSONTag "created_at" ("c_date" ++ ",omitempty") ∈
        (optByTable st "user").1 ∧
      ModelOpt.fieldIgnore (strSplitOn "a,b" ",") ∈
        (optByTable st "orders").1 ∧
      (∀ U, U ≠ "user" →
        ModelOpt.fieldJSONTag "created_at" ("c_date" ++ ",omitempty") ∉
          (optByTable st U).1) ∧
      (∀ U, U ≠ "orders" →
        ModelOpt.fieldIgnore (strSplitOn "a,b" ",") ∉
          (optByTable st U).1)) :=
  ⟨by decide, by decide, by decide, by decide,
    spec2proof_C1 "user->created_at->c_date" "orders->a,b" "user" "orders"
      "created_at" "c_date" "a,b" (by decide) (by decide) (by decide)
      (by decide)⟩

/-- C5: directives of all four kinds with wildcard scope `*` land in the
global set — the option list in loop order (retag, regrom-tag, ignore)
and the global type-override map for the data-type kind — and every
per-table map stays empty, so resolving any table adds no
table-specific option and no table-specific data-type call is made. -/
theorem spec2proof_C5 (dr dg di dk f1 g1 f2 g2 flds f3 : String)
    (v : DataTypeFn)
    (hdr : strSplitOn dr "->" = ["*", f1, g1])
    (hdg : strSplitOn dg "->" = ["*", f2, g2])
    (hdi : strSplitOn di "->" = ["*", flds])
    (hdk : strSplitOn dk "->" = ["*", f3]) :
    ∃ st, formatGlobal
        { rename := [], ignore := [di], retags := [dr], reGromTags := [dg],
          dataType := some [(dk, v)] } initOrm = .ok st ∧
      st.global = [ModelOpt.fieldJSONTag f1 (g1 ++ ",omitempty"),
        ModelOpt.fieldGORMTag f2 g2,
        ModelOpt.fieldIgnore (strSplitOn flds ",")] ∧
      st.globalTypes = [(f3, v)] ∧
      st.retagopt = [] ∧ st.regormtag = [] ∧ st.ignoreopt = [] ∧
      st.types = [] ∧
      (∀ U, (optByTable st U).1 = [] ∧ genoptByTable st U = none) := by
  refine ⟨⟨[], [], [], [], [(f3, v)],
    [ModelOpt.fieldJSONTag f1 (g1 ++ ",omitempty"),
      ModelOpt.fieldGORMTag f2 g2,
      ModelOpt.fieldIgnore (strSplitOn flds ",")]⟩,
    ?_, rfl, rfl, rfl, rfl, rfl, rfl, ?_⟩
  · simp [formatGlobal, retagLoop, regromLoop, ignoreLoop, dataTypeLoop,
      hdr, hdg, hdi, hdk, mapUpd, lookupA, initOrm, Bind.bind, Except.bind]
  · intro U
    constructor
    · simp [optByTable, lookupA]
    · simp [genoptByTable, lookupA]

/-- C5 witness: the star-scoped directives `*->created_at->c_date`
(retag), `*->status->state` (regrom-tag), `*->a,b` (ignore), and
`*->timestamp` (data-type key). -/
theorem spec2proof_C5_witness :
    strSplitOn "*->created_at->c_date" "->" =
      ["*", "created_at", "c_date"] ∧
    strSplitOn "*->status->state" "->" = ["*", "status", "state"] ∧
    strSplitOn "*->a,b" "->" = ["*", "a,b"] ∧
    strSplitOn "*->timestamp" "->" = ["*", "timestamp"] ∧
    (∃ st, formatGlobal
        { rename := [], ignore := ["*->a,b"],
          retags := ["*->created_at->c_date"],
          reGromTags := ["*->status->state"],
          dataType := some [("*->timestamp", "timeFunc")] } initOrm =
        .ok st ∧
      st.global = [ModelOpt.fieldJSONTag "created_at"
          ("c_date" ++ ",omitempty"),
        ModelOpt.fieldGORMTag "status" "state",
        ModelOpt.fieldIgnore (strSplitOn "a,b" ",")] ∧
      st.globalTypes = [("timestamp", "timeFunc")] ∧
      st.retagopt = [] ∧ st.regormtag = [] ∧ st.ignoreopt = [] ∧
      st.types = [] ∧
      (∀ U, (optByTable st U).1 = [] ∧ genoptByTable st U = none)) :=
  ⟨by decide, by decide, by decide, by decide,
    spec2proof_C5 "*->created_at->c_date" "*->status->state" "*->a,b"
      "*->timestamp" "created_at" "c_date" "status" "state" "a,b"
      "timestamp" "timeFunc" (by decide) (by decide) (by decide)
      (by decide)⟩

/-- C9: in a single `model` run the option slice is never reset between
tables — for indices `i < j` of the recorded generator calls, the option
list passed for the j-th call still contains (as a contiguous segment)
the per-table options resolved for the i-th call's table. -/
theorem spec2proof_C9 (st : OrmState) (ign : List String)
    (tables : List String) (i j : Nat) (hij : i < j) (ci cj : GenCall)
    (hgi : (modelRun st ign tables)[i]? = some ci)
    (hgj : (modelRun st ign tables)[j]? = some cj) :
    ∃ pre rest, cj.opts = pre ++ (optByTable st ci.table).1 ++ rest :=
  modelGo_chain st tables _ i j hij ci cj hgi hgj

/-- C9 witness: with a per-table ignore rule for `t1`, the call for the
second table `t2` still carries `t1`'s resolved option. -/
theorem spec2proof_C9_witness :
    (0 : Nat) < 1 ∧
    (modelRun
      { initOrm with ignoreopt := [("t1", ["f"])] } [] ["t1", "t2"])[0]? =
      some ⟨"t1", none, [ModelOpt.fieldIgnore ["f"]]⟩ ∧
    (modelRun
      { initOrm with ignoreopt := [("t1", ["f"])] } [] ["t1", "t2"])[1]? =
      some ⟨"t2", none, [ModelOpt.fieldIgnore ["f"]]⟩ ∧
    (∃ pre rest,
      GenCall.opts ⟨"t2", none, [ModelOpt.fieldIgnore ["f"]]⟩ =
        pre ++ (optByTable
          { initOrm with ignoreopt := [("t1", ["f"])] }
          (GenCall.table ⟨"t1", none, [ModelOpt.fieldIgnore ["f"]]⟩)).1 ++
          rest) :=
  ⟨by decide, by decide, by decide,
    spec2proof_C9 { initOrm with ignoreopt := [("t1", ["f"])] } []
      ["t1", "t2"] 0 1 (by decide) _ _ (by decide) (by decide)⟩

/-- C10: after a successful `formatGlobal` from the initial state, every
`fieldJSONTag` option in the global list, and every one resolved by
`optByTable` for any table, carries the `,omitempty` suffix on its tag;
and the generator's default JSON tag name strategy appends `,omitempty`
to every column name. -/
theorem spec2proof_C10 (opt : OrmOption) (st : OrmState)
    (h : formatGlobal opt initOrm = .ok st) :
    optsJsonOmit st.global ∧
    (∀ T, optsJsonOmit (optByTable st T).1) ∧
    (∀ c, jsonTagNameStrategy c = c ++ ",omitempty") := by
  obtain ⟨retags, g1, rgl, g2, ignopt, g3, h1, h2, h3, e1, e2, e3, e4, _⟩ :=
    formatGlobal_ok_parts opt initOrm st h
  have hrt0 : rtmapOmit initOrm.retagopt := by
    intro T e hTe
    simp [initOrm, lookupA] at hTe
  have hg0 : optsJsonOmit initOrm.global := by
    intro f t hm
    simp [initOrm] at hm
  obtain ⟨hrt1, hg1⟩ :=
    retagLoop_omit opt.retags ([], initOrm.global) (retags, g1) hrt0 hg0 h1
  have hg2 :=
    regromLoop_omit opt.reGromTags retags ([], g1) (rgl, g2) hg1 h2
  have hg3 :=
    ignoreLoop_omit opt.ignore (initOrm.ignoreopt, g2) (ignopt, g3) hg2 h3
  refine ⟨by rw [e4]; exact hg3, ?_, fun c => rfl⟩
  intro T f t hm
  obtain ⟨e, he, hfe⟩ := optByTable_json st T f t hm
  rw [e1] at he
  exact hrt1 T e he (f, t) hfe

/-- C10 witness: a global retag `*->a->b` and a table-scoped retag
`t->c->d`; both stored tags end in `,omitempty`. -/
theorem spec2proof_C10_witness :
    formatGlobal
      { rename := [], ignore := [], retags := ["*->a->b", "t->c->d"],
        reGromTags := [], dataType := none } initOrm =
      .ok ⟨[("t", [("c", "d,omitempty")])], [], [], [], [],
        [ModelOpt.fieldJSONTag "a" "b,omitempty"]⟩ ∧
    (optsJsonOmit (OrmState.global
        ⟨[("t", [("c", "d,omitempty")])], [], [], [], [],
          [ModelOpt.fieldJSONTag "a" "b,omitempty"]⟩) ∧
      (∀ T, optsJsonOmit (optByTable
        ⟨[("t", [("c", "d,omitempty")])], [], [], [], [],
          [ModelOpt.fieldJSONTag "a" "b,omitempty"]⟩ T).1) ∧
      (∀ c, jsonTagNameStrategy c = c ++ ",omitempty")) :=
  ⟨by decide,
    spec2proof_C10
      { rename := [], ignore := [], retags := ["*->a->b", "t->c->d"],
        reGromTags := [], dataType := none }
      ⟨[("t", [("c", "d,omitempty")])], [], [], [], [],
        [ModelOpt.fieldJSONTag "a" "b,omitempty"]⟩ (by decide)⟩
